import Mathlib

/-!
# MAPAQ Track-B data pipeline: formal model and verification

This file gives a shallow embedding of the MAPAQ predictive-health
repository: the batch data pipeline (Ingestor, Cleaner, Enricher,
RiskModeler, Validator, BackupManager, Persister, PipelineOrchestrator)
and the front-end helpers (`APICache`, `LazyLoader`,
`PerformanceMonitor`) that live in the JavaScript sources.

The pipeline implementation files (`data_pipeline.py`, `data_validator.py`,
`pipeline_scheduler.py`, …) are referenced by the repository's README but
are not part of the sources available here, so the pipeline definitions
below are modelled from the specification; the JavaScript components are
translated directly from the code.
-/

namespace Mapaq

/-- Severity of a validation rule: `error` blocks the record, `warning`
only flags it. -/
inductive Severity where
  | error
  | warning
deriving DecidableEq, Repr

/-- Risk category assigned by the RiskModeler. -/
inductive RiskCategory where
  | low
  | medium
  | high
deriving DecidableEq, Repr

/-- Modelled from the spec: one establishment-inspection observation
(spec §3 Record).  Dates are canonical day numbers, the raw status date
string is kept for date-format validation; `name`/`address` are optional
so that the Cleaner can mark required-but-missing fields; risk score and
category are nullable until the RiskModeler runs. -/
structure Record where
  identifier : Nat
  name : Option String
  address : Option String
  theme : String
  sizeClass : Nat
  histViolations : Nat
  amount : Option ℚ
  status : String
  statusDate : Nat
  dateRaw : String
  riskScore : Option ℚ
  riskCategory : Option RiskCategory
deriving DecidableEq, Repr

/-! ## Durable store

Modelled from the spec (§6): a keyed table supporting upsert-by-identifier.
We represent it as an association list from identifier to record, with
no duplicate keys. -/

/-- The durable store: association list keyed by record identifier. -/
abbrev Store := List (Nat × Record)

/-- Look up the record stored under identifier `k`. -/
def lookupStore : Store → Nat → Option Record
  | [], _ => none
  | p :: t, k => if p.1 = k then some p.2 else lookupStore t k

/-- The identifiers present in the store, in storage order. -/
def storeKeys (s : Store) : List Nat :=
  s.map Prod.fst

/-- Modelled from the spec: insert-or-update keyed by record identifier
(spec §4.7, §6).  An existing entry is replaced in place; a new key is
appended. -/
def upsert : Store → Record → Store
  | [], r => [(r.identifier, r)]
  | p :: t, r =>
      if p.1 = r.identifier then (r.identifier, r) :: t else p :: upsert t r

/-- Upsert every record of a batch, in batch order (last write wins). -/
def upsertAll (s : Store) (b : List Record) : Store :=
  b.foldl upsert s

/-! ## Validation rules

Modelled from the spec (§4.5, §9): rules are data — tagged variants
{RequiredField, Range, Enumeration, DateFormat} with a severity and an
optional effective-date range, evaluated by a single dispatcher. -/

/-- A string-valued record field a rule can refer to. -/
inductive FieldRef where
  | nameF
  | addressF
  | themeF
  | statusF
deriving DecidableEq, Repr

/-- A numeric record field a rule can refer to. -/
inductive NumRef where
  | scoreN
  | amountN
  | histN
deriving DecidableEq, Repr

/-- Read a string-valued field from a record. -/
def Record.getField (r : Record) : FieldRef → Option String
  | .nameF => r.name
  | .addressF => r.address
  | .themeF => some r.theme
  | .statusF => some r.status

/-- Read a numeric field from a record. -/
def Record.getNum (r : Record) : NumRef → Option ℚ
  | .scoreN => r.riskScore
  | .amountN => r.amount
  | .histN => some (r.histViolations : ℚ)

/-- Canonical date format conformance (YYYY-MM-DD): ten characters,
digits everywhere except dashes at positions 4 and 7. -/
def isCanonicalDate (s : String) : Bool :=
  let cs := s.toList
  cs.length = 10 &&
    (List.range 10).all (fun i =>
      match cs.get? i with
      | some c => if i = 4 || i = 7 then c = '-' else c.isDigit
      | none => false)

/-- Modelled from the spec: the body of a validation rule, one of the
four tagged variants of §9. -/
inductive RuleBody where
  | requiredField (f : FieldRef)
  | range (f : NumRef) (lo hi : ℚ)
  | enumeration (f : FieldRef) (allowed : List String)
  | dateFormat
deriving DecidableEq

/-- The single rule dispatcher: does this rule body fire (i.e. is it
violated) on this record? -/
def ruleFires (b : RuleBody) (r : Record) : Bool :=
  match b with
  | .requiredField f => (r.getField f).isNone
  | .range f lo hi =>
      match r.getNum f with
      | some v => !(decide (lo ≤ v) && decide (v ≤ hi))
      | none => false
  | .enumeration f allowed =>
      match r.getField f with
      | some v => !(allowed.contains v)
      | none => false
  | .dateFormat => !(isCanonicalDate r.dateRaw)

/-- Modelled from the spec: a named, severity-tagged predicate with an
optional effective-date range (spec §3 ValidationRule, §4.5). -/
structure ValidationRule where
  name : String
  severity : Severity
  body : RuleBody
  effective : Option (Nat × Nat)
deriving DecidableEq

/-- A rule applies to a record iff its effective-date range (when
present) covers the record's observation date. -/
def ruleApplies (ru : ValidationRule) (r : Record) : Bool :=
  match ru.effective with
  | none => true
  | some (a, b) => decide (a ≤ r.statusDate) && decide (r.statusDate ≤ b)

/-- A rule is violated by a record iff it applies and its body fires. -/
def violates (ru : ValidationRule) (r : Record) : Bool :=
  ruleApplies ru r && ruleFires ru.body r

/-- A record is invalid iff some `error`-severity rule is violated;
`warning`-severity violations never invalidate (spec §4.5). -/
def recordInvalid (rules : List ValidationRule) (r : Record) : Bool :=
  rules.any (fun ru => decide (ru.severity = .error) && violates ru r)

/-- The records of a batch that survive validation and are passed on to
persistence. -/
def validRecords (rules : List ValidationRule) (batch : List Record) :
    List Record :=
  batch.filter (fun r => !(recordInvalid rules r))

/-- Modelled from the spec: per-run validation aggregate (spec §3
ValidationReport): counts passed/failed, grouped violations and the
validation rate. -/
structure ValidationReport where
  passed : Nat
  failed : Nat
  violations : List (String × Nat)
  rate : ℚ
deriving DecidableEq

/-- Build the validation report for a batch. -/
def mkValidationReport (rules : List ValidationRule)
    (batch : List Record) : ValidationReport :=
  let valid := validRecords rules batch
  { passed := valid.length
    failed := batch.length - valid.length
    violations :=
      batch.flatMap (fun r =>
        (rules.filter (fun ru => violates ru r)).map
          (fun ru => (ru.name, r.identifier)))
    rate := if batch.length = 0 then 1 else
      (valid.length : ℚ) / (batch.length : ℚ) }

/-! ## Pipeline stages

Modelled from the spec (§4.1–§4.4): ingestion produces raw records whose
parse success is tracked, cleaning normalizes and deduplicates, enrichment
attaches theme / normalized address / historical aggregate, and the
RiskModeler applies the injected scoring function. -/

/-- Modelled from the spec: a raw ingested record together with whether
its required fields parsed (`parseOk = false` is a `MalformedInput`
per-record failure, §4.2, §7). -/
structure RawRecord where
  record : Record
  parseOk : Bool
deriving DecidableEq

/-- Modelled from the spec: the Cleaner's field normalization — text
trimmed, dates already canonical day numbers (§4.2). -/
def normalizeRecord (r : Record) : Record :=
  { r with
    name := r.name.map String.trim
    address := r.address.map String.trim
    status := r.status.trim }

/-- Modelled from the spec: remove exact duplicate records — same
identifier and same status date (§4.2); the first occurrence is kept. -/
def cleanDedup (seen : List (Nat × Nat)) : List Record → List Record
  | [] => []
  | r :: rest =>
      if (r.identifier, r.statusDate) ∈ seen then
        cleanDedup seen rest
      else
        r :: cleanDedup ((r.identifier, r.statusDate) :: seen) rest

/-- Modelled from the spec: theme classification by keyword match against
the theme dictionary — first match wins, no match gives "unknown"
(§4.3). A keyword matches when it occurs as a word of the record's name. -/
def themeOf (themeDict : List (String × String)) (r : Record) : String :=
  match themeDict.find?
      (fun kv => (((r.name.getD "").splitOn " ").contains kv.1)) with
  | some kv => kv.2
  | none => "unknown"

/-- Modelled from the spec: best-effort address normalization from the
address dictionary; a failed lookup leaves the address unresolved but
does not fail the record (§4.3). -/
def resolveAddress (addrDict : List (String × String)) :
    Option String → Option String
  | none => none
  | some a =>
      match addrDict.find? (fun kv => kv.1 = a) with
      | some kv => some kv.2
      | none => some a

/-- Modelled from the spec: the historical-violation aggregate for an
establishment identifier, looked up from the persisted store (§4.3) —
the prior-violation count stored under that identifier, `0` when the
establishment is not yet in the store. -/
def histLookup (s : Store) (id : Nat) : Nat :=
  match lookupStore s id with
  | some r => r.histViolations
  | none => 0

/-- Dictionaries consumed read-only by the Enricher (spec §6). -/
structure Dictionaries where
  themeDict : List (String × String)
  addrDict : List (String × String)

/-- Modelled from the spec: enrich one record — theme classification,
address resolution and the historical aggregate from the store (§4.3). -/
def enrichRecord (dicts : Dictionaries) (s : Store) (r : Record) : Record :=
  { r with
    theme := themeOf dicts.themeDict r
    address := resolveAddress dicts.addrDict r.address
    histViolations := histLookup s r.identifier }

/-- The fixed risk-category thresholds documented by the spec (§4.4):
low < 0.33 ≤ medium < 0.66 ≤ high. -/
def lowThreshold : ℚ := 33 / 100

/-- Upper threshold: scores at or above it are high risk. -/
def highThreshold : ℚ := 66 / 100

/-- Modelled from the spec: map a risk score to a category via the fixed
thresholds (§4.4). -/
def categorize (s : ℚ) : RiskCategory :=
  if s < lowThreshold then .low
  else if s < highThreshold then .medium
  else .high

/-- Modelled from the spec: the RiskModeler applies the injected scoring
function per record; `none` is a `ScoringFailure` — the record is marked
failed and excluded without aborting the batch (§4.4). -/
def scoreRecord (scoringFn : Record → Option ℚ) (r : Record) :
    Option Record :=
  match scoringFn r with
  | some sc =>
      some { r with riskScore := some sc, riskCategory := some (categorize sc) }
  | none => none

/-! ## Persister and BackupManager

Modelled from the spec (§4.6, §4.7): `snapshot` must complete before any
destructive write when backups are enabled, `BackupUnavailable` is fatal,
and a partial-write failure triggers `restore`, returning the store to
its pre-run state. -/

/-- Observable events of the persistence phase, in order. -/
inductive Event where
  | snapshotEvt
  | writeEvt (id : Nat)
  | restoreEvt
deriving DecidableEq, Repr

/-- Is this event a destructive write? -/
def Event.isWrite : Event → Bool
  | .writeEvt _ => true
  | _ => false

/-- Outcome of the persistence phase. -/
inductive PersistStatus where
  | ok
  | failed
deriving DecidableEq, Repr

/-- Modelled from the spec: write the valid records one by one as an
upsert-by-identifier unit; `failAfter = some k` (with `k` less than the
batch length) models a partial-write failure after `k` successful
writes (§4.7). Returns the written store, the write events, and whether
the unit committed. -/
def writeBatch (s : Store) (valid : List Record) :
    Option Nat → Store × List Event × Bool
  | none =>
      (upsertAll s valid, valid.map (fun r => Event.writeEvt r.identifier), true)
  | some k =>
      if k < valid.length then
        (upsertAll s (valid.take k),
         (valid.take k).map (fun r => Event.writeEvt r.identifier), false)
      else
        (upsertAll s valid, valid.map (fun r => Event.writeEvt r.identifier), true)

/-- Modelled from the spec: the persistence phase of one run (§4.6–§4.8).
With backups enabled, a snapshot is taken before any write; if the
snapshot fails (`BackupUnavailable`) the run is fatal and no write
proceeds; a partial-write failure triggers `restore`, returning the
store to its pre-run state. Without backups the store's transactional
batch write (spec §6) aborts to the pre-run state on failure. -/
def persistPhase (backupEnabled snapshotOk : Bool) (failAfter : Option Nat)
    (s : Store) (valid : List Record) : Store × PersistStatus × List Event :=
  if backupEnabled then
    if !snapshotOk then
      (s, .failed, [])
    else
      let w := writeBatch s valid failAfter
      if w.2.2 then
        (w.1, .ok, Event.snapshotEvt :: w.2.1)
      else
        (s, .failed, Event.snapshotEvt :: w.2.1 ++ [Event.restoreEvt])
  else
    let w := writeBatch s valid failAfter
    if w.2.2 then
      (w.1, .ok, w.2.1)
    else
      (s, .failed, w.2.1)

/-! ## Orchestrator

Modelled from the spec (§4.8): the state machine
Idle → Ingesting → Cleaning → Enriching → Modeling → Validating →
Persisting → {Succeeded | PartiallySucceeded | Failed}, with per-stage
retry up to `maxRetries` and a complete run report for every run. -/

/-- The five retried processing stages of a run (spec §4.8). -/
inductive StageName where
  | ingesting
  | cleaning
  | enriching
  | modeling
  | validating
deriving DecidableEq, Repr

/-- The fixed order of the five processing stages. -/
def stageList : List StageName :=
  [.ingesting, .cleaning, .enriching, .modeling, .validating]

/-- Terminal status of a run (spec §3 PipelineRunReport, §4.8). -/
inductive RunStatus where
  | succeeded
  | partiallySucceeded
  | failed
deriving DecidableEq, Repr

/-- Modelled from the spec: the parameter set of one orchestrator
instance (spec §3 PipelineConfig), restricted to the fields the
verified properties depend on. -/
structure PipelineConfig where
  backupEnabled : Bool
  maxRetries : Nat
  batchSize : Nat
deriving DecidableEq

/-- The environment of one run: which attempt of each stage succeeds
(`false` is a transient, retryable failure), whether the backup snapshot
succeeds, and an optional partial-write failure point in persistence. -/
structure RunEnv where
  stageOk : StageName → Nat → Bool
  snapshotOk : Bool
  persistFailAfter : Option Nat

/-- First attempt index (starting at `i`) on which `ok` succeeds, trying
at most `fuel` attempts; `none` when the budget is exhausted. -/
def firstSuccess (ok : Nat → Bool) (i : Nat) : Nat → Option Nat
  | 0 => none
  | fuel + 1 => if ok i then some i else firstSuccess ok (i + 1) fuel

/-- Modelled from the spec: run one stage with retry — up to
`maxRetries` re-attempts after the first try, i.e. at most
`maxRetries + 1` attempts in total (§4.8). Returns the successful
attempt index, or `none` when the retry budget is exhausted. -/
def runStageRetry (ok : Nat → Bool) (maxRetries : Nat) : Option Nat :=
  firstSuccess ok 0 (maxRetries + 1)

/-- Run the five processing stages in order, logging the attempt count
of every stage that was started; a stage that exhausts its budget stops
the run (remaining stages are skipped).  Returns the per-stage attempt
log and whether all stages completed. -/
def runStages (env : RunEnv) (maxRetries : Nat) :
    List StageName → List (StageName × Nat) × Bool
  | [] => ([], true)
  | st :: rest =>
      match runStageRetry (env.stageOk st) maxRetries with
      | some k =>
          let t := runStages env maxRetries rest
          ((st, k + 1) :: t.1, t.2)
      | none => ([(st, maxRetries + 1)], false)

/-- Reason a record was excluded from persistence (spec §7: per-record
failures `MalformedInput`, `ScoringFailure`, `ValidationError`). -/
inductive ExclusionReason where
  | malformedInput
  | scoringFailure
  | validationError
deriving DecidableEq, Repr

/-- The outcome of the per-record processing stages of one run. -/
structure ProcessOut where
  exclusions : List (Nat × ExclusionReason)
  validRecs : List Record
  vreport : ValidationReport
deriving DecidableEq

/-- Modelled from the spec: the deterministic per-record data flow of one
run — clean (drop malformed, dedupe, normalize), enrich, score, validate
(§4.2–§4.5).  Per-record failures exclude the record and are aggregated;
they never abort the batch (§7). -/
def processBatch (dicts : Dictionaries) (rules : List ValidationRule)
    (scoringFn : Record → Option ℚ) (s : Store)
    (source : List RawRecord) : ProcessOut :=
  let malformed :=
    (source.filter (fun rr => !rr.parseOk)).map
      (fun rr => (rr.record.identifier, ExclusionReason.malformedInput))
  let cleaned :=
    cleanDedup [] ((source.filter (fun rr => rr.parseOk)).map
      (fun rr => normalizeRecord rr.record))
  let enriched := cleaned.map (enrichRecord dicts s)
  let scoringExcl :=
    (enriched.filter (fun r => (scoreRecord scoringFn r).isNone)).map
      (fun r => (r.identifier, ExclusionReason.scoringFailure))
  let scored := enriched.filterMap (scoreRecord scoringFn)
  let valid := validRecords rules scored
  let validationExcl :=
    (scored.filter (fun r => recordInvalid rules r)).map
      (fun r => (r.identifier, ExclusionReason.validationError))
  { exclusions := malformed ++ scoringExcl ++ validationExcl
    validRecs := valid
    vreport := mkValidationReport rules scored }

/-- Modelled from the spec: the structured outcome of one run (spec §3
PipelineRunReport): final status, per-stage attempt counts, the
per-record exclusions, and the embedded validation report when the run
reached Validating. -/
structure PipelineRunReport where
  status : RunStatus
  stageAttempts : List (StageName × Nat)
  exclusions : List (Nat × ExclusionReason)
  vreport : Option ValidationReport
deriving DecidableEq

/-- Modelled from the spec: one full orchestrator run (§4.8).  The five
processing stages run in order with per-stage retry; exhaustion of a
retry budget fails the run.  If validation leaves no valid record the
run fails; otherwise the run proceeds to Persisting, and on persistence
success the run is `succeeded` when nothing was excluded and
`partiallySucceeded` otherwise; a persistence failure (after restore)
is terminal `failed`. -/
def runPipeline (cfg : PipelineConfig) (env : RunEnv)
    (dicts : Dictionaries) (rules : List ValidationRule)
    (scoringFn : Record → Option ℚ) (s : Store)
    (source : List RawRecord) : PipelineRunReport × Store :=
  let stages := runStages env cfg.maxRetries stageList
  if stages.2 then
    let po := processBatch dicts rules scoringFn s source
    if po.validRecs.isEmpty then
      ({ status := .failed
         stageAttempts := stages.1
         exclusions := po.exclusions
         vreport := some po.vreport }, s)
    else
      let p := persistPhase cfg.backupEnabled env.snapshotOk
        env.persistFailAfter s po.validRecs
      match p.2.1 with
      | .ok =>
          ({ status := if po.exclusions.isEmpty then .succeeded
               else .partiallySucceeded
             stageAttempts := stages.1
             exclusions := po.exclusions
             vreport := some po.vreport }, p.1)
      | .failed =>
          ({ status := .failed
             stageAttempts := stages.1
             exclusions := po.exclusions
             vreport := some po.vreport }, p.1)
  else
    ({ status := .failed
       stageAttempts := stages.1
       exclusions := []
       vreport := none }, s)

/-! ## APICache (translated from the JavaScript source)

`class APICache` keeps a `Map` from key to `{data, timestamp}`; `get`
returns `null` for a missing key, deletes and returns `null` for an
entry older than `maxAge`, and otherwise returns the entry's data;
`set` stores `{data, timestamp: Date.now()}`.  Time is passed
explicitly (`Date.now()` becomes the `now` argument). -/

/-- One cache entry: the stored data and its storage time. -/
structure CacheItem (α : Type) where
  data : α
  timestamp : Nat
deriving DecidableEq

/-- The API cache: insertion-ordered map from key to entry, plus the
maximum entry age in milliseconds (default 300000 in the source). -/
structure APICache (α : Type) where
  cache : List (String × CacheItem α)
  maxAge : Nat
deriving DecidableEq

/-- `this.cache.get(key)` on the underlying `Map`. -/
def mapFind : List (String × CacheItem α) → String → Option (CacheItem α)
  | [], _ => none
  | p :: t, key => if p.1 = key then some p.2 else mapFind t key

/-- `this.cache.delete(key)` on the underlying `Map`. -/
def mapDelete (l : List (String × CacheItem α)) (key : String) :
    List (String × CacheItem α) :=
  l.filter (fun p => !(p.1 = key))

/-- `this.cache.set(key, item)` on the underlying `Map`: replace the
existing entry in place, or append a new one. -/
def mapSet : List (String × CacheItem α) → String → CacheItem α →
    List (String × CacheItem α)
  | [], key, item => [(key, item)]
  | p :: t, key, item =>
      if p.1 = key then (key, item) :: t else p :: mapSet t key item

/-- Entry lookup on the cache. -/
def APICache.find (c : APICache α) (key : String) :
    Option (CacheItem α) :=
  mapFind c.cache key

/-- `APICache.get`: `null` when the key is absent; when the entry is
older than `maxAge` the entry is deleted and `null` returned; otherwise
the entry's data.  Returns the result and the possibly-updated cache. -/
def APICache.get (c : APICache α) (now : Nat) (key : String) :
    Option α × APICache α :=
  match c.find key with
  | none => (none, c)
  | some item =>
      if now - item.timestamp > c.maxAge then
        (none, { c with cache := mapDelete c.cache key })
      else
        (some item.data, c)

/-- `APICache.set`: store `{data, timestamp: now}` under `key`,
replacing an existing entry (JavaScript `Map.set` keeps the original
position) or appending a new one. -/
def APICache.set (c : APICache α) (now : Nat) (key : String) (d : α) :
    APICache α :=
  { c with cache := mapSet c.cache key ⟨d, now⟩ }

/-! ## LazyLoader (translated from the JavaScript source)

The `IntersectionObserver` callback loads each intersecting entry's
target and immediately unobserves it.  Elements are identifiers; the
loader state is the set of currently observed elements plus the load
log.  The observer only delivers an entry for a target it currently
observes (unobserved targets produce no further notifications). -/

/-- Loader state: currently observed elements and the elements passed to
`loadComponent`, in load order. -/
structure LoaderState where
  observed : List Nat
  loaded : List Nat
deriving DecidableEq

/-- One observer entry delivered to the callback: the target element and
its `isIntersecting` flag. -/
structure Entry where
  target : Nat
  isIntersecting : Bool
deriving DecidableEq

/-- The observer callback body for one entry: an entry is delivered only
for a currently observed target; when it is intersecting the target is
loaded (`loadComponent`) and immediately unobserved. -/
def stepEntry (s : LoaderState) (e : Entry) : LoaderState :=
  if e.target ∈ s.observed then
    if e.isIntersecting then
      { observed := s.observed.erase e.target
        loaded := s.loaded ++ [e.target] }
    else s
  else s

/-- Process a stream of observer entries. -/
def runEntries (s : LoaderState) (es : List Entry) : LoaderState :=
  es.foldl stepEntry s

/-- `observeElements`: observe every `[data-lazy]` element
(`querySelectorAll` yields each element once), with an empty load log. -/
def initLoader (elems : List Nat) : LoaderState :=
  { observed := elems.dedup, loaded := [] }

/-! ## PerformanceMonitor (translated from the JavaScript source)

`reportMetrics` POSTs the collected metrics to
`/api/v1/performance-metrics` when `Math.random() < 0.1`, and does
nothing otherwise; the stored metrics object is not modified.  The
random draw is passed explicitly. -/

/-- A network call issued by the browser (`fetch`). -/
structure NetworkCall where
  method : String
  url : String
deriving DecidableEq

/-- The endpoint `reportMetrics` posts to. -/
def metricsEndpoint : String := "/api/v1/performance-metrics"

/-- The sampling threshold: 10% of users (`Math.random() < 0.1`). -/
def sampleRate : ℚ := 1 / 10

/-- `PerformanceMonitor.reportMetrics`: with a fresh random draw below
the sampling threshold, POST the metrics; otherwise no network call.
Returns the optional network call and the (unchanged) metrics. -/
def reportMetrics (draw : ℚ) (metrics : α) : Option NetworkCall × α :=
  if draw < sampleRate then
    (some { method := "POST", url := metricsEndpoint }, metrics)
  else
    (none, metrics)

/-! ## Store lemmas -/

/-- The last record of a batch carrying a given identifier, if any. -/
def lastWith : List Record → Nat → Option Record
  | [], _ => none
  | r :: b, k =>
      match lastWith b k with
      | some r' => some r'
      | none => if r.identifier = k then some r else none

theorem storeKeys_nil : storeKeys [] = [] := rfl

theorem storeKeys_cons (p : Nat × Record) (t : Store) :
    storeKeys (p :: t) = p.1 :: storeKeys t := rfl

theorem lookup_upsert (s : Store) (r : Record) (k : Nat) :
    lookupStore (upsert s r) k =
      if r.identifier = k then some r else lookupStore s k := by
  induction s with
  | nil =>
      by_cases hk : r.identifier = k <;> simp [upsert, lookupStore, hk]
  | cons p t ih =>
      by_cases hp : p.1 = r.identifier
      · by_cases hk : r.identifier = k
        · simp [upsert, lookupStore, hp, hk]
        · have : ¬(p.1 = k) := by rw [hp]; exact hk
          simp [upsert, lookupStore, hp, hk, this]
      · by_cases hpk : p.1 = k
        · have h₁ : ¬(r.identifier = k) := by
            intro h
            exact hp (hpk.trans h.symm)
          have h₂ : ¬(k = r.identifier) := fun h => h₁ h.symm
          simp [upsert, lookupStore, hp, hpk, h₁, h₂]
        · simp [upsert, lookupStore, hp, hpk, ih]

theorem lookup_upsertAll (b : List Record) (s : Store) (k : Nat) :
    lookupStore (upsertAll s b) k =
      match lastWith b k with
      | some r => some r
      | none => lookupStore s k := by
  induction b generalizing s with
  | nil => simp [upsertAll, lastWith]
  | cons r b ih =>
      show lookupStore (upsertAll (upsert s r) b) k = _
      rw [ih]
      show _ = (match (match lastWith b k with
        | some r' => some r'
        | none => if r.identifier = k then some r else none) with
        | some r' => some r'
        | none => lookupStore s k)
      cases h : lastWith b k with
      | some r' => rfl
      | none =>
          rw [lookup_upsert]
          by_cases hk : r.identifier = k <;> simp [hk]

theorem lastWith_mem {b : List Record} {k : Nat} {r : Record}
    (h : lastWith b k = some r) : r ∈ b ∧ r.identifier = k := by
  induction b with
  | nil => cases h
  | cons r₀ b ih =>
      have h' : (match lastWith b k with
        | some r' => some r'
        | none => if r₀.identifier = k then some r₀ else none) = some r := h
      cases h₀ : lastWith b k with
      | some r' =>
          rw [h₀] at h'
          have h'' : some r' = some r := h'
          cases h''
          exact ⟨List.mem_cons_of_mem _ (ih h₀).1, (ih h₀).2⟩
      | none =>
          rw [h₀] at h'
          have h'' : (if r₀.identifier = k then some r₀ else none) = some r := h'
          by_cases hk : r₀.identifier = k
          · rw [if_pos hk] at h''
            cases h''
            exact ⟨List.mem_cons_self _ _, hk⟩
          · rw [if_neg hk] at h''
            cases h''

theorem storeKeys_upsert_of_mem {s : Store} {r : Record}
    (h : r.identifier ∈ storeKeys s) :
    storeKeys (upsert s r) = storeKeys s := by
  induction s with
  | nil => cases h
  | cons p t ih =>
      by_cases hp : p.1 = r.identifier
      · simp [upsert, hp, storeKeys_cons]
      · have ht : r.identifier ∈ storeKeys t := by
          rcases (List.mem_cons.mp h) with h₀ | h₀
          · exact absurd h₀.symm hp
          · exact h₀
        simp [upsert, hp, storeKeys_cons, ih ht]

theorem storeKeys_upsert_of_not_mem {s : Store} {r : Record}
    (h : r.identifier ∉ storeKeys s) :
    storeKeys (upsert s r) = storeKeys s ++ [r.identifier] := by
  induction s with
  | nil => rfl
  | cons p t ih =>
      have hp : ¬(p.1 = r.identifier) := by
        intro h₀
        exact h (by rw [storeKeys_cons, ← h₀]; exact List.mem_cons_self _ _)
      have ht : r.identifier ∉ storeKeys t := by
        intro h₀
        exact h (List.mem_cons_of_mem _ h₀)
      simp [upsert, hp, storeKeys_cons, ih ht]

theorem mem_keys_upsert_self (s : Store) (r : Record) :
    r.identifier ∈ storeKeys (upsert s r) := by
  by_cases h : r.identifier ∈ storeKeys s
  · rwa [storeKeys_upsert_of_mem h]
  · rw [storeKeys_upsert_of_not_mem h]
    simp

theorem mem_keys_upsert_mono {s : Store} {k : Nat} (r : Record)
    (h : k ∈ storeKeys s) : k ∈ storeKeys (upsert s r) := by
  by_cases hm : r.identifier ∈ storeKeys s
  · rwa [storeKeys_upsert_of_mem hm]
  · rw [storeKeys_upsert_of_not_mem hm]
    exact List.mem_append_left _ h

theorem mem_keys_upsertAll_mono {s : Store} {k : Nat} (b : List Record)
    (h : k ∈ storeKeys s) : k ∈ storeKeys (upsertAll s b) := by
  induction b generalizing s with
  | nil => exact h
  | cons r b ih => exact ih (mem_keys_upsert_mono r h)

theorem mem_keys_upsertAll {b : List Record} {r : Record} (s : Store)
    (h : r ∈ b) : r.identifier ∈ storeKeys (upsertAll s b) := by
  induction b generalizing s with
  | nil => cases h
  | cons r₀ b ih =>
      rcases List.mem_cons.mp h with h₀ | h₀
      · subst h₀
        exact mem_keys_upsertAll_mono b (mem_keys_upsert_self s r)
      · exact ih _ h₀

theorem nodup_keys_upsert {s : Store} (r : Record)
    (h : (storeKeys s).Nodup) : (storeKeys (upsert s r)).Nodup := by
  by_cases hm : r.identifier ∈ storeKeys s
  · rwa [storeKeys_upsert_of_mem hm]
  · rw [storeKeys_upsert_of_not_mem hm, List.nodup_append]
    refine ⟨h, List.nodup_singleton _, ?_⟩
    intro a ha hb
    rw [List.mem_singleton] at hb
    subst hb
    exact hm ha

theorem nodup_keys_upsertAll {s : Store} (b : List Record)
    (h : (storeKeys s).Nodup) : (storeKeys (upsertAll s b)).Nodup := by
  induction b generalizing s with
  | nil => exact h
  | cons r b ih => exact ih (nodup_keys_upsert r h)

theorem storeKeys_upsertAll_of_all_mem {b : List Record} {s : Store}
    (h : ∀ r ∈ b, r.identifier ∈ storeKeys s) :
    storeKeys (upsertAll s b) = storeKeys s := by
  induction b generalizing s with
  | nil => rfl
  | cons r b ih =>
      have hr := h r (List.mem_cons_self r b)
      show storeKeys (upsertAll (upsert s r) b) = _
      rw [ih, storeKeys_upsert_of_mem hr]
      intro r' hr'
      rw [storeKeys_upsert_of_mem hr]
      exact h r' (List.mem_cons_of_mem _ hr')

theorem lookup_eq_none_of_not_mem {s : Store} {k : Nat}
    (h : k ∉ storeKeys s) : lookupStore s k = none := by
  induction s with
  | nil => rfl
  | cons p t ih =>
      have hp : ¬(p.1 = k) := by
        intro h₀
        exact h (h₀ ▸ List.mem_cons_self _ _)
      have ht : k ∉ storeKeys t := fun h₀ => h (List.mem_cons_of_mem _ h₀)
      simp [lookupStore, hp, ih ht]

theorem store_eq_of_keys_lookup (s₁ s₂ : Store)
    (hk : storeKeys s₁ = storeKeys s₂) (hnd : (storeKeys s₁).Nodup)
    (hl : ∀ k, lookupStore s₁ k = lookupStore s₂ k) : s₁ = s₂ := by
  induction s₁ generalizing s₂ with
  | nil =>
      have : storeKeys s₂ = [] := hk.symm
      unfold storeKeys at this
      exact (List.map_eq_nil_iff.mp this).symm
  | cons p t₁ ih =>
      obtain ⟨k, v⟩ := p
      cases s₂ with
      | nil => exact absurd hk (by simp [storeKeys])
      | cons q t₂ =>
          obtain ⟨k₂, v₂⟩ := q
          rw [storeKeys_cons, storeKeys_cons] at hk
          have hkk : k = k₂ := (List.cons.injEq _ _ _ _ ▸ hk).1
          have hkt : storeKeys t₁ = storeKeys t₂ :=
            (List.cons.injEq _ _ _ _ ▸ hk).2
          subst hkk
          have hv : v = v₂ := by
            have h₀ := hl k
            simp [lookupStore] at h₀
            exact h₀
          subst hv
          rw [storeKeys_cons, List.nodup_cons] at hnd
          congr 1
          refine ih _ hkt hnd.2 ?_
          intro k₀
          by_cases hk₀ : k₀ = k
          · subst hk₀
            rw [lookup_eq_none_of_not_mem hnd.1,
              lookup_eq_none_of_not_mem (hkt ▸ hnd.1)]
          · have h₀ := hl k₀
            have hne : ¬(k = k₀) := fun h => hk₀ h.symm
            simpa [lookupStore, hne] using h₀

theorem upsertAll_idem {s : Store} (b : List Record)
    (hnd : (storeKeys s).Nodup) :
    upsertAll (upsertAll s b) b = upsertAll s b := by
  apply store_eq_of_keys_lookup
  · exact storeKeys_upsertAll_of_all_mem (fun r hr => mem_keys_upsertAll s hr)
  · exact nodup_keys_upsertAll b (nodup_keys_upsertAll b hnd)
  · intro k
    rw [lookup_upsertAll, lookup_upsertAll]
    cases h : lastWith b k <;> simp [h]

/-! ## Risk-category lemmas -/

theorem categorize_low_iff (x : ℚ) :
    categorize x = .low ↔ x < 33 / 100 := by
  unfold categorize lowThreshold highThreshold
  split_ifs with h₁ h₂ <;> simp_all

theorem categorize_medium_iff (x : ℚ) :
    categorize x = .medium ↔ 33 / 100 ≤ x ∧ x < 66 / 100 := by
  unfold categorize lowThreshold highThreshold
  split_ifs with h₁ h₂ <;> simp_all <;> linarith

theorem categorize_high_iff (x : ℚ) :
    categorize x = .high ↔ 66 / 100 ≤ x := by
  unfold categorize lowThreshold highThreshold
  split_ifs with h₁ h₂ <;> simp_all <;> linarith

/-- A fixed concrete record used to instantiate theorems. -/
def sampleRecord : Record :=
  { identifier := 1
    name := some "Sushi Bar"
    address := some "1 Main St"
    theme := "unknown"
    sizeClass := 2
    histViolations := 0
    amount := some 100
    status := "Ouvert"
    statusDate := 100
    dateRaw := "2024-01-15"
    riskScore := none
    riskCategory := none }

/-- C7: for every record, the RiskModeler's output risk score lies in
[0,1] (given the scoring-function contract), and the risk category is
determined from the score by the fixed thresholds: low when
score < 0.33, medium when 0.33 ≤ score < 0.66, high when 0.66 ≤ score. -/
theorem c7_risk_score_bounds_and_categories
    (scoringFn : Record → Option ℚ)
    (hbound : ∀ r q, scoringFn r = some q → 0 ≤ q ∧ q ≤ 1)
    (r r' : Record) (h : scoreRecord scoringFn r = some r') :
    ∃ sc : ℚ, r'.riskScore = some sc ∧ 0 ≤ sc ∧ sc ≤ 1 ∧
      r'.riskCategory = some (categorize sc) ∧
      (categorize sc = .low ↔ sc < 33 / 100) ∧
      (categorize sc = .medium ↔ 33 / 100 ≤ sc ∧ sc < 66 / 100) ∧
      (categorize sc = .high ↔ 66 / 100 ≤ sc) := by
  unfold scoreRecord at h
  cases hs : scoringFn r with
  | none => rw [hs] at h; cases h
  | some sc =>
      rw [hs] at h
      have h' : some ({ r with
        riskScore := some sc
        riskCategory := some (categorize sc) } : Record) = some r' := h
      cases h'
      obtain ⟨h0, h1⟩ := hbound r sc hs
      exact ⟨sc, rfl, h0, h1, rfl, categorize_low_iff sc,
        categorize_medium_iff sc, categorize_high_iff sc⟩

theorem c7_witness :
    ∃ r' : Record,
      scoreRecord (fun _ => some (1 / 2)) sampleRecord = some r' ∧
      ∃ sc : ℚ, r'.riskScore = some sc ∧ 0 ≤ sc ∧ sc ≤ 1 ∧
        r'.riskCategory = some (categorize sc) := by
  refine ⟨_, rfl, ?_⟩
  obtain ⟨sc, h₁, h₂, h₃, h₄, _⟩ :=
    c7_risk_score_bounds_and_categories (fun _ => some (1 / 2))
      (fun r q hq => by
        cases hq
        norm_num) sampleRecord _ rfl
  exact ⟨sc, h₁, h₂, h₃, h₄⟩

/-- C10: `reportMetrics` issues a POST of the metrics to
`/api/v1/performance-metrics` exactly when the fresh random draw is
strictly below 0.1; otherwise it performs no network call; in both
cases the stored metrics are unchanged. -/
theorem c10_reportMetrics_sampling {α : Type} (draw : ℚ) (metrics : α) :
    (draw < 1 / 10 →
      (reportMetrics draw metrics).1 =
        some { method := "POST", url := "/api/v1/performance-metrics" }) ∧
    (¬ draw < 1 / 10 → (reportMetrics draw metrics).1 = none) ∧
    (reportMetrics draw metrics).2 = metrics := by
  unfold reportMetrics sampleRate metricsEndpoint
  refine ⟨?_, ?_, ?_⟩
  · intro h
    rw [if_pos h]
  · intro h
    rw [if_neg h]
  · split_ifs <;> rfl

theorem c10_witness :
    (reportMetrics (0 : ℚ) (5 : Nat)).1 =
      some { method := "POST", url := "/api/v1/performance-metrics" } ∧
    (reportMetrics (1 : ℚ) (5 : Nat)).1 = none ∧
    (reportMetrics (0 : ℚ) (5 : Nat)).2 = 5 :=
  ⟨(c10_reportMetrics_sampling 0 5).1 (by norm_num),
   (c10_reportMetrics_sampling 1 5).2.1 (by norm_num),
   (c10_reportMetrics_sampling 0 5).2.2⟩

/-- C3: if any `error`-severity rule whose effective-date range covers
the record's observation date fires on a record of the batch, the
record is invalid and absent from the records passed to persistence;
a record violating no `error`-severity rule (warnings at most) is kept. -/
theorem c3_error_rule_excludes
    (rules : List ValidationRule) (batch : List Record) (r : Record)
    (ru : ValidationRule) (hmem : ru ∈ rules) (hsev : ru.severity = .error)
    (happ : ruleApplies ru r = true) (hfire : ruleFires ru.body r = true) :
    recordInvalid rules r = true ∧ r ∉ validRecords rules batch ∧
    (∀ r₂ ∈ batch, (∀ ru₂ ∈ rules, ru₂.severity = .error →
        violates ru₂ r₂ = false) → r₂ ∈ validRecords rules batch) := by
  have hinv : recordInvalid rules r = true := by
    unfold recordInvalid
    rw [List.any_eq_true]
    refine ⟨ru, hmem, ?_⟩
    simp [violates, happ, hfire, hsev]
  refine ⟨hinv, ?_, ?_⟩
  · intro hmem'
    unfold validRecords at hmem'
    rw [List.mem_filter, hinv] at hmem'
    simp at hmem'
  · intro r₂ hb hno
    unfold validRecords
    rw [List.mem_filter]
    refine ⟨hb, ?_⟩
    have hfalse : recordInvalid rules r₂ = false := by
      unfold recordInvalid
      rw [List.any_eq_false]
      intro ru₂ hru₂
      by_cases hs : ru₂.severity = .error
      · simp [hs, hno ru₂ hru₂ hs]
      · simp [hs]
    rw [hfalse]
    rfl

/-- An error-severity required-field rule with an effective range. -/
def c3rule : ValidationRule :=
  { name := "required-name"
    severity := .error
    body := .requiredField .nameF
    effective := some (50, 150) }

/-- A record with a missing required name, observed inside the rule's
effective range. -/
def c3rec : Record :=
  { sampleRecord with name := none }

theorem c3_witness :
    recordInvalid [c3rule] c3rec = true ∧
    c3rec ∉ validRecords [c3rule] [c3rec] := by
  have h := c3_error_rule_excludes [c3rule] [c3rec] c3rec c3rule
    (List.mem_singleton.mpr rfl) rfl (by decide) (by decide)
  exact ⟨h.1, h.2.1⟩

/-! ## LazyLoader lemmas -/

theorem stepEntry_count (s : LoaderState) (e : Entry) (x : Nat)
    (h : s.loaded.count x + s.observed.count x ≤ 1) :
    (stepEntry s e).loaded.count x + (stepEntry s e).observed.count x ≤ 1 := by
  unfold stepEntry
  split_ifs with h₁ h₂
  · by_cases hx : x = e.target
    · subst hx
      have hobs : 0 < s.observed.count e.target := List.count_pos_iff.mpr h₁
      simp [List.count_append, List.count_erase_self, List.count_singleton']
      omega
    · have hne' : ¬(e.target = x) := fun hc => hx hc.symm
      simp [List.count_append, List.count_erase_of_ne hx,
        List.count_singleton', hne']
      omega
  · exact h
  · exact h

theorem runEntries_count (es : List Entry) (s : LoaderState) (x : Nat)
    (h : s.loaded.count x + s.observed.count x ≤ 1) :
    (runEntries s es).loaded.count x + (runEntries s es).observed.count x ≤ 1 := by
  induction es generalizing s with
  | nil => exact h
  | cons e es ih => exact ih (stepEntry s e) (stepEntry_count s e x h)

/-- C9: every element observed by the LazyLoader is passed to
`loadComponent` at most once — on the first intersection it is loaded
and immediately unobserved, so no entry stream can load it twice. -/
theorem c9_lazyloader_loads_at_most_once (elems : List Nat)
    (es : List Entry) (e : Nat) :
    ((runEntries (initLoader elems) es).loaded.count e) ≤ 1 := by
  have h := runEntries_count es (initLoader elems) e (by
    unfold initLoader
    simp only [List.count_nil, List.count_dedup]
    split_ifs <;> simp)
  omega

/-! ## APICache lemmas -/

theorem mapFind_mapSet_self (l : List (String × CacheItem α))
    (key : String) (item : CacheItem α) :
    mapFind (mapSet l key item) key = some item := by
  induction l with
  | nil => simp [mapSet, mapFind]
  | cons p t ih =>
      by_cases hp : p.1 = key
      · simp [mapSet, mapFind, hp]
      · simp [mapSet, mapFind, hp, ih]

theorem mapFind_mapDelete_self (l : List (String × CacheItem α))
    (key : String) :
    mapFind (mapDelete l key) key = none := by
  induction l with
  | nil => rfl
  | cons p t ih =>
      by_cases hp : p.1 = key
      · simpa [mapDelete, List.filter_cons, hp] using ih
      · simpa [mapDelete, mapFind, List.filter_cons, hp] using ih

theorem cacheGet_some {α : Type} {c : APICache α} {key : String}
    {item : CacheItem α} (h : c.find key = some item) (now : Nat) :
    c.get now key =
      if now - item.timestamp > c.maxAge then
        (none, { c with cache := mapDelete c.cache key })
      else (some item.data, c) := by
  unfold APICache.get
  rw [h]

theorem cacheGet_none {α : Type} {c : APICache α} {key : String}
    (h : c.find key = none) (now : Nat) :
    c.get now key = (none, c) := by
  unfold APICache.get
  rw [h]

/-- C8: `APICache.get k` returns exactly the data stored by the most
recent `set k d` while the entry is at most `maxAge` old; it returns
`null` when the key was never set or the entry is older than `maxAge`,
and in the expired case it deletes the entry so a subsequent `get k`
still returns `null`. -/
theorem c8_apicache_get {α : Type} (c : APICache α) (k : String) (d : α)
    (t now : Nat) :
    (now - t ≤ c.maxAge → ((c.set t k d).get now k).1 = some d) ∧
    (c.find k = none → (c.get now k).1 = none) ∧
    (now - t > c.maxAge →
      ((c.set t k d).get now k).1 = none ∧
      ∀ now₂ : Nat, ((((c.set t k d).get now k).2).get now₂ k).1 = none) := by
  have hfind : (c.set t k d).find k = some ⟨d, t⟩ := by
    unfold APICache.set APICache.find
    exact mapFind_mapSet_self c.cache k ⟨d, t⟩
  have hmax : ((c.set t k d).maxAge) = c.maxAge := rfl
  have hts : ((⟨d, t⟩ : CacheItem α)).timestamp = t := rfl
  refine ⟨?_, ?_, ?_⟩
  · intro h
    rw [cacheGet_some hfind, hmax, hts, if_neg (by omega)]
  · intro h
    rw [cacheGet_none h]
  · intro h
    have hdel :
        ({ c.set t k d with
          cache := mapDelete ((c.set t k d).cache) k } : APICache α).find k =
          none := mapFind_mapDelete_self _ k
    constructor
    · rw [cacheGet_some hfind, hmax, hts, if_pos h]
    · intro now₂
      rw [cacheGet_some hfind, hmax, hts, if_pos h]
      show (({ c.set t k d with
        cache := mapDelete ((c.set t k d).cache) k } : APICache α).get
          now₂ k).1 = none
      rw [cacheGet_none hdel]

theorem c8_witness :
    ((((⟨[], 300000⟩ : APICache Nat).set 0 "a" 7).get 100 "a").1 = some 7) ∧
    (((⟨[], 300000⟩ : APICache Nat).get 100 "b").1 = none) ∧
    ((((⟨[], 300000⟩ : APICache Nat).set 0 "a" 7).get 300001 "a").1 = none ∧
      ∀ now₂ : Nat,
        (((((⟨[], 300000⟩ : APICache Nat).set 0 "a" 7).get 300001 "a").2).get
          now₂ "a").1 = none) :=
  ⟨(c8_apicache_get ⟨[], 300000⟩ "a" 7 0 100).1 (by norm_num),
   (c8_apicache_get (⟨[], 300000⟩ : APICache Nat) "b" 0 0 100).2.1 rfl,
   (c8_apicache_get ⟨[], 300000⟩ "a" 7 0 300001).2.2 (by norm_num)⟩

/-! ## Persistence lemmas -/

theorem lastWith_isSome_of_mem {b : List Record} {r : Record} (h : r ∈ b) :
    ∃ p, lastWith b r.identifier = some p := by
  induction b with
  | nil => cases h
  | cons r₀ b ih =>
      show ∃ p, (match lastWith b r.identifier with
        | some r' => some r'
        | none => if r₀.identifier = r.identifier then some r₀ else none) =
          some p
      cases h₀ : lastWith b r.identifier with
      | some p => exact ⟨p, rfl⟩
      | none =>
          rcases List.mem_cons.mp h with h₁ | h₁
          · subst h₁
            exact ⟨r, by simp⟩
          · obtain ⟨p, hp⟩ := ih h₁
            rw [h₀] at hp
            cases hp

theorem lookup_upsertAll_of_mem {b : List Record} {r : Record} (s : Store)
    (h : r ∈ b) :
    ∃ p, lookupStore (upsertAll s b) r.identifier = some p := by
  obtain ⟨p, hp⟩ := lastWith_isSome_of_mem h
  refine ⟨p, ?_⟩
  rw [lookup_upsertAll, hp]

theorem snapshot_head_before_write (rest : List Event) (i : Nat) (id : Nat)
    (h : (Event.snapshotEvt :: rest).get? i = some (Event.writeEvt id)) :
    ∃ j, j < i ∧ (Event.snapshotEvt :: rest).get? j =
      some Event.snapshotEvt := by
  cases i with
  | zero => simp [List.get?] at h
  | succ n => exact ⟨0, Nat.succ_pos n, rfl⟩

/-- C1: persistence is all-or-nothing per batch: on success every valid
record of the batch is present in the store (keyed by identifier, last
write wins); on any failure the store is back to its pre-run state; and
a partial-write failure mid-batch (with backups enabled and a completed
snapshot) triggers `BackupManager.restore` and the run is reported
failed. -/
theorem c1_persist_all_or_nothing
    (backupEnabled snapshotOk : Bool) (failAfter : Option Nat)
    (s : Store) (valid : List Record) :
    ((persistPhase backupEnabled snapshotOk failAfter s valid).2.1 =
        .ok →
      (persistPhase backupEnabled snapshotOk failAfter s valid).1 =
          upsertAll s valid ∧
      ∀ r ∈ valid, ∃ p,
        lookupStore
          (persistPhase backupEnabled snapshotOk failAfter s valid).1
          r.identifier = some p) ∧
    ((persistPhase backupEnabled snapshotOk failAfter s valid).2.1 =
        .failed →
      (persistPhase backupEnabled snapshotOk failAfter s valid).1 = s) ∧
    (backupEnabled = true → snapshotOk = true → ∀ k, failAfter = some k →
      k < valid.length →
      (persistPhase backupEnabled snapshotOk failAfter s valid).2.1 =
        .failed ∧
      Event.restoreEvt ∈
        (persistPhase backupEnabled snapshotOk failAfter s valid).2.2) := by
  cases backupEnabled with
  | false =>
      cases failAfter with
      | none =>
          refine ⟨?_, ?_, ?_⟩
          · intro _
            exact ⟨rfl, fun r hr => lookup_upsertAll_of_mem s hr⟩
          · intro h
            cases h
          · intro h
            cases h
      | some k =>
          by_cases hk : k < valid.length
          · have hw : writeBatch s valid (some k) =
                (upsertAll s (valid.take k),
                 (valid.take k).map (fun r => Event.writeEvt r.identifier),
                 false) := by
              simp only [writeBatch]
              rw [if_pos hk]
            refine ⟨?_, ?_, ?_⟩
            · intro h
              simp [persistPhase, hw] at h
            · intro _
              simp [persistPhase, hw]
            · intro h
              cases h
          · have hw : writeBatch s valid (some k) =
                (upsertAll s valid,
                 valid.map (fun r => Event.writeEvt r.identifier), true) := by
              simp only [writeBatch]
              rw [if_neg hk]
            refine ⟨?_, ?_, ?_⟩
            · intro _
              constructor
              · simp [persistPhase, hw]
              · intro r hr
                have : (persistPhase false snapshotOk (some k) s valid).1 =
                    upsertAll s valid := by
                  simp [persistPhase, hw]
                rw [this]
                exact lookup_upsertAll_of_mem s hr
            · intro h
              simp [persistPhase, hw] at h
            · intro h
              cases h
  | true =>
      cases snapshotOk with
      | false =>
          refine ⟨?_, ?_, ?_⟩
          · intro h
            simp [persistPhase] at h
          · intro _
            simp [persistPhase]
          · intro _ h
            cases h
      | true =>
          cases failAfter with
          | none =>
              refine ⟨?_, ?_, ?_⟩
              · intro _
                constructor
                · simp [persistPhase, writeBatch]
                · intro r hr
                  have : (persistPhase true true none s valid).1 =
                      upsertAll s valid := by
                    simp [persistPhase, writeBatch]
                  rw [this]
                  exact lookup_upsertAll_of_mem s hr
              · intro h
                simp [persistPhase, writeBatch] at h
              · intro _ _ k h
                cases h
          | some k =>
              by_cases hk : k < valid.length
              · have hw : writeBatch s valid (some k) =
                    (upsertAll s (valid.take k),
                     (valid.take k).map
                       (fun r => Event.writeEvt r.identifier),
                     false) := by
                  simp only [writeBatch]
                  rw [if_pos hk]
                refine ⟨?_, ?_, ?_⟩
                · intro h
                  simp [persistPhase, hw] at h
                · intro _
                  simp [persistPhase, hw]
                · intro _ _ k' hk' hlen
                  have hkk : k' = k := by
                    cases hk'
                    rfl
                  subst hkk
                  refine ⟨by simp [persistPhase, hw], ?_⟩
                  simp [persistPhase, hw]
              · have hw : writeBatch s valid (some k) =
                    (upsertAll s valid,
                     valid.map (fun r => Event.writeEvt r.identifier),
                     true) := by
                  simp only [writeBatch]
                  rw [if_neg hk]
                refine ⟨?_, ?_, ?_⟩
                · intro _
                  constructor
                  · simp [persistPhase, hw]
                  · intro r hr
                    have : (persistPhase true true (some k) s valid).1 =
                        upsertAll s valid := by
                      simp [persistPhase, hw]
                    rw [this]
                    exact lookup_upsertAll_of_mem s hr
                · intro h
                  simp [persistPhase, hw] at h
                · intro _ _ k' hk' hlen
                  have hkk : k' = k := by
                    cases hk'
                    rfl
                  subst hkk
                  exact absurd hlen hk

theorem c1_witness :
    ((persistPhase true true (some 0) [] [sampleRecord]).2.1 =
        PersistStatus.failed ∧
      Event.restoreEvt ∈
        (persistPhase true true (some 0) [] [sampleRecord]).2.2) ∧
    (persistPhase true true (some 0) [] [sampleRecord]).1 = [] :=
  ⟨(c1_persist_all_or_nothing true true (some 0) [] [sampleRecord]).2.2
      rfl rfl 0 rfl (by simp),
   (c1_persist_all_or_nothing true true (some 0) [] [sampleRecord]).2.1
      (((c1_persist_all_or_nothing true true (some 0) [] [sampleRecord]).2.2
        rfl rfl 0 rfl (by simp)).1)⟩

theorem persistPhase_failed_eq (backupEnabled snapshotOk : Bool)
    (failAfter : Option Nat) (s : Store) (valid : List Record)
    (h : (persistPhase backupEnabled snapshotOk failAfter s valid).2.1 =
      .failed) :
    (persistPhase backupEnabled snapshotOk failAfter s valid).1 = s := by
  cases backupEnabled with
  | false =>
      cases failAfter with
      | none => simp [persistPhase, writeBatch] at h
      | some k =>
          by_cases hk : k < valid.length
          · have hw : writeBatch s valid (some k) =
                (upsertAll s (valid.take k),
                 (valid.take k).map (fun r => Event.writeEvt r.identifier),
                 false) := by
              simp only [writeBatch]
              rw [if_pos hk]
            simp [persistPhase, hw]
          · have hw : writeBatch s valid (some k) =
                (upsertAll s valid,
                 valid.map (fun r => Event.writeEvt r.identifier), true) := by
              simp only [writeBatch]
              rw [if_neg hk]
            simp [persistPhase, hw] at h
  | true =>
      cases snapshotOk with
      | false => simp [persistPhase]
      | true =>
          cases failAfter with
          | none => simp [persistPhase, writeBatch] at h
          | some k =>
              by_cases hk : k < valid.length
              · have hw : writeBatch s valid (some k) =
                    (upsertAll s (valid.take k),
                     (valid.take k).map
                       (fun r => Event.writeEvt r.identifier), false) := by
                  simp only [writeBatch]
                  rw [if_pos hk]
                simp [persistPhase, hw]
              · have hw : writeBatch s valid (some k) =
                    (upsertAll s valid,
                     valid.map (fun r => Event.writeEvt r.identifier),
                     true) := by
                  simp only [writeBatch]
                  rw [if_neg hk]
                simp [persistPhase, hw] at h

/-- C6: with backups enabled, no destructive write happens before the
snapshot has completed: a failed snapshot (`BackupUnavailable`) makes
the run fatal with no write at all, every write event in the trace is
preceded by a snapshot event, and on a persistence failure the store is
restored to its pre-run state. -/
theorem c6_snapshot_before_writes
    (snapshotOk : Bool) (failAfter : Option Nat)
    (s : Store) (valid : List Record) :
    (snapshotOk = false →
      (persistPhase true snapshotOk failAfter s valid).2.1 = .failed ∧
      (persistPhase true snapshotOk failAfter s valid).1 = s ∧
      ∀ e ∈ (persistPhase true snapshotOk failAfter s valid).2.2,
        e.isWrite = false) ∧
    (∀ i id,
      (persistPhase true snapshotOk failAfter s valid).2.2.get? i =
        some (Event.writeEvt id) →
      ∃ j, j < i ∧
        (persistPhase true snapshotOk failAfter s valid).2.2.get? j =
          some Event.snapshotEvt) ∧
    ((persistPhase true snapshotOk failAfter s valid).2.1 = .failed →
      (persistPhase true snapshotOk failAfter s valid).1 = s) := by
  cases snapshotOk with
  | false =>
      refine ⟨?_, ?_, ?_⟩
      · intro _
        refine ⟨by simp [persistPhase], by simp [persistPhase], ?_⟩
        intro e he
        simp [persistPhase] at he
      · intro i id h
        simp [persistPhase, List.get?] at h
      · intro _
        simp [persistPhase]
  | true =>
      have htrace : ∃ rest : List Event,
          (persistPhase true true failAfter s valid).2.2 =
            Event.snapshotEvt :: rest := by
        cases failAfter with
        | none =>
            exact ⟨valid.map (fun r => Event.writeEvt r.identifier),
              by simp [persistPhase, writeBatch]⟩
        | some k =>
            by_cases hk : k < valid.length
            · refine ⟨(valid.take k).map
                (fun r => Event.writeEvt r.identifier) ++
                  [Event.restoreEvt], ?_⟩
              have hw : writeBatch s valid (some k) =
                  (upsertAll s (valid.take k),
                   (valid.take k).map (fun r => Event.writeEvt r.identifier),
                   false) := by
                simp only [writeBatch]
                rw [if_pos hk]
              simp [persistPhase, hw]
            · refine ⟨valid.map (fun r => Event.writeEvt r.identifier), ?_⟩
              have hw : writeBatch s valid (some k) =
                  (upsertAll s valid,
                   valid.map (fun r => Event.writeEvt r.identifier),
                   true) := by
                simp only [writeBatch]
                rw [if_neg hk]
              simp [persistPhase, hw]
      refine ⟨?_, ?_, ?_⟩
      · intro h
        cases h
      · obtain ⟨rest, hrest⟩ := htrace
        rw [hrest]
        exact fun i id h => snapshot_head_before_write rest i id h
      · intro h
        exact persistPhase_failed_eq true true failAfter s valid h

theorem c6_witness :
    ((persistPhase true false none [] [sampleRecord]).2.1 =
        PersistStatus.failed ∧
      (persistPhase true false none [] [sampleRecord]).1 = [] ∧
      ∀ e ∈ (persistPhase true false none [] [sampleRecord]).2.2,
        e.isWrite = false) ∧
    ((persistPhase true false none [] [sampleRecord]).2.1 =
        PersistStatus.failed →
      (persistPhase true false none [] [sampleRecord]).1 = []) :=
  ⟨(c6_snapshot_before_writes false none [] [sampleRecord]).1 rfl,
   (c6_snapshot_before_writes false none [] [sampleRecord]).2.2⟩

/-! ## Retry lemmas -/

theorem firstSuccess_none_of_false {ok : Nat → Bool}
    (h : ∀ i, ok i = false) : ∀ (fuel i : Nat), firstSuccess ok i fuel = none := by
  intro fuel
  induction fuel with
  | zero => intro i; rfl
  | succ n ih =>
      intro i
      unfold firstSuccess
      rw [h i]
      exact ih (i + 1)

theorem firstSuccess_lt {ok : Nat → Bool} :
    ∀ (fuel i : Nat) {j : Nat}, firstSuccess ok i fuel = some j → j < i + fuel := by
  intro fuel
  induction fuel with
  | zero => intro i j h; cases h
  | succ n ih =>
      intro i j h
      unfold firstSuccess at h
      by_cases hok : ok i = true
      · rw [if_pos hok] at h
        cases h
        omega
      · rw [if_neg hok] at h
        have := ih (i + 1) h
        omega

theorem runStages_attempts_le (env : RunEnv) (m : Nat) :
    ∀ (l : List StageName), ∀ p ∈ (runStages env m l).1, p.2 ≤ m + 1 := by
  intro l
  induction l with
  | nil => intro p hp; cases hp
  | cons st rest ih =>
      intro p hp
      unfold runStages at hp
      cases h₀ : runStageRetry (env.stageOk st) m with
      | some k =>
          rw [h₀] at hp
          rcases List.mem_cons.mp hp with h₁ | h₁
          · subst h₁
            have := firstSuccess_lt (m + 1) 0 h₀
            omega
          · exact ih p h₁
      | none =>
          rw [h₀] at hp
          rcases List.mem_cons.mp hp with h₁ | h₁
          · subst h₁
            exact Nat.le_refl _
          · cases h₁

theorem runStages_failed {env : RunEnv} {m : Nat} {st : StageName} :
    ∀ {l : List StageName}, st ∈ l →
    runStageRetry (env.stageOk st) m = none →
    (runStages env m l).2 = false ∧
      ∃ st', (st', m + 1) ∈ (runStages env m l).1 := by
  intro l
  induction l with
  | nil => intro h; cases h
  | cons st₀ rest ih =>
      intro hst hnone
      cases h₀ : runStageRetry (env.stageOk st₀) m with
      | none =>
          constructor
          · show (runStages env m (st₀ :: rest)).2 = false
            unfold runStages
            rw [h₀]
          · refine ⟨st₀, ?_⟩
            show (st₀, m + 1) ∈ (runStages env m (st₀ :: rest)).1
            unfold runStages
            rw [h₀]
            exact List.mem_singleton.mpr rfl
      | some k =>
          have hst' : st ∈ rest := by
            rcases List.mem_cons.mp hst with h₁ | h₁
            · subst h₁
              rw [hnone] at h₀
              cases h₀
            · exact h₁
          obtain ⟨hflag, st', hmem⟩ := ih hst' hnone
          constructor
          · show (runStages env m (st₀ :: rest)).2 = false
            unfold runStages
            rw [h₀]
            exact hflag
          · refine ⟨st', ?_⟩
            show (st', m + 1) ∈ (runStages env m (st₀ :: rest)).1
            unfold runStages
            rw [h₀]
            exact List.mem_cons_of_mem _ hmem

theorem runPipeline_stages_failed (cfg : PipelineConfig) (env : RunEnv)
    (dicts : Dictionaries) (rules : List ValidationRule)
    (scoringFn : Record → Option ℚ) (s : Store) (source : List RawRecord)
    (hflag : (runStages env cfg.maxRetries stageList).2 = false) :
    runPipeline cfg env dicts rules scoringFn s source =
      ({ status := .failed
         stageAttempts := (runStages env cfg.maxRetries stageList).1
         exclusions := []
         vreport := none }, s) := by
  unfold runPipeline
  simp [hflag]

/-- C2: a stage that keeps failing with a retryable error is re-attempted
at most `maxRetries` times (at most `maxRetries + 1` attempts recorded
for every stage), the run terminates with status `failed`, and the
exhausted stage's attempt count is recorded in the run report. -/
theorem c2_retry_bound (cfg : PipelineConfig) (env : RunEnv)
    (dicts : Dictionaries) (rules : List ValidationRule)
    (scoringFn : Record → Option ℚ) (s : Store) (source : List RawRecord)
    (st : StageName) (hst : st ∈ stageList)
    (hfail : ∀ i, env.stageOk st i = false) :
    (runPipeline cfg env dicts rules scoringFn s source).1.status =
      .failed ∧
    (∀ p ∈ (runPipeline cfg env dicts rules scoringFn s
        source).1.stageAttempts, p.2 ≤ cfg.maxRetries + 1) ∧
    (∃ st', (st', cfg.maxRetries + 1) ∈
      (runPipeline cfg env dicts rules scoringFn s
        source).1.stageAttempts) := by
  have hnone : runStageRetry (env.stageOk st) cfg.maxRetries = none := by
    unfold runStageRetry
    exact firstSuccess_none_of_false hfail _ 0
  obtain ⟨hflag, st', hmem⟩ := runStages_failed hst hnone
  rw [runPipeline_stages_failed cfg env dicts rules scoringFn s source hflag]
  exact ⟨rfl, fun p hp => runStages_attempts_le env cfg.maxRetries _ p hp,
    ⟨st', hmem⟩⟩

theorem c2_witness :
    (runPipeline ⟨true, 3, 100⟩
      ⟨fun _ _ => false, true, none⟩ ⟨[], []⟩ []
      (fun _ => some (1 / 2)) [] []).1.status = RunStatus.failed ∧
    ∃ st', (st', 4) ∈
      (runPipeline ⟨true, 3, 100⟩
        ⟨fun _ _ => false, true, none⟩ ⟨[], []⟩ []
        (fun _ => some (1 / 2)) [] []).1.stageAttempts :=
  ⟨(c2_retry_bound ⟨true, 3, 100⟩ ⟨fun _ _ => false, true, none⟩ ⟨[], []⟩ []
      (fun _ => some (1 / 2)) [] [] .ingesting (by simp [stageList])
      (fun _ => rfl)).1,
   (c2_retry_bound ⟨true, 3, 100⟩ ⟨fun _ _ => false, true, none⟩ ⟨[], []⟩ []
      (fun _ => some (1 / 2)) [] [] .ingesting (by simp [stageList])
      (fun _ => rfl)).2.2⟩

/-! ## Orchestrator reduction lemmas -/

theorem persistPhase_eq_ok (backupEnabled : Bool) (s : Store)
    (valid : List Record) :
    persistPhase backupEnabled true none s valid =
      (upsertAll s valid, .ok,
        if backupEnabled then
          Event.snapshotEvt ::
            valid.map (fun r => Event.writeEvt r.identifier)
        else valid.map (fun r => Event.writeEvt r.identifier)) := by
  cases backupEnabled <;> simp [persistPhase, writeBatch]

theorem runPipeline_no_valid (cfg : PipelineConfig) (env : RunEnv)
    (dicts : Dictionaries) (rules : List ValidationRule)
    (scoringFn : Record → Option ℚ) (s : Store) (source : List RawRecord)
    (hflag : (runStages env cfg.maxRetries stageList).2 = true)
    (hval : (processBatch dicts rules scoringFn s source).validRecs = []) :
    runPipeline cfg env dicts rules scoringFn s source =
      ({ status := .failed
         stageAttempts := (runStages env cfg.maxRetries stageList).1
         exclusions := (processBatch dicts rules scoringFn s source).exclusions
         vreport :=
           some (processBatch dicts rules scoringFn s source).vreport }, s) := by
  unfold runPipeline
  simp [hflag, hval]

theorem runPipeline_persist_ok (cfg : PipelineConfig) (env : RunEnv)
    (dicts : Dictionaries) (rules : List ValidationRule)
    (scoringFn : Record → Option ℚ) (s : Store) (source : List RawRecord)
    (hflag : (runStages env cfg.maxRetries stageList).2 = true)
    (hsnap : env.snapshotOk = true)
    (hfa : env.persistFailAfter = none)
    (hval : (processBatch dicts rules scoringFn s source).validRecs ≠ []) :
    runPipeline cfg env dicts rules scoringFn s source =
      ({ status :=
           if (processBatch dicts rules scoringFn s
               source).exclusions.isEmpty then
             .succeeded
           else .partiallySucceeded
         stageAttempts := (runStages env cfg.maxRetries stageList).1
         exclusions := (processBatch dicts rules scoringFn s source).exclusions
         vreport :=
           some (processBatch dicts rules scoringFn s source).vreport },
       upsertAll s (processBatch dicts rules scoringFn s
         source).validRecs) := by
  have hempty :
      (processBatch dicts rules scoringFn s source).validRecs.isEmpty =
        false := by
    cases hE : (processBatch dicts rules scoringFn s source).validRecs.isEmpty
    · rfl
    · exact absurd (List.isEmpty_iff.mp hE) hval
  unfold runPipeline
  rw [hsnap, hfa]
  simp [hflag, hempty, persistPhase_eq_ok]

/-- C4 counterexample ingredients: one malformed record, one clean
record, and an environment whose persistence fails mid-batch. -/
def c4recA : Record :=
  { identifier := 1
    name := some "A"
    address := none
    theme := "x"
    sizeClass := 0
    histViolations := 0
    amount := none
    status := ""
    statusDate := 0
    dateRaw := "2024-01-01"
    riskScore := none
    riskCategory := none }

/-- Second record for the C4 scenario (malformed on ingest). -/
def c4recB : Record :=
  { c4recA with identifier := 2 }

/-- The C4 source batch: a malformed record and a clean one. -/
def c4source : List RawRecord :=
  [⟨c4recB, false⟩, ⟨c4recA, true⟩]

/-- Environment where every stage succeeds but the first persistence
write fails. -/
def c4env : RunEnv :=
  ⟨fun _ _ => true, true, some 0⟩

/-- C4 as written is false on the model: a run can have a surviving
record after validation and still terminate `failed`, because the
Persisting stage itself fails (spec §4.8: persisting failure after
backup triggers restore and terminal `Failed`). -/
theorem c4_counterexample :
    (processBatch ⟨[], []⟩ [] (fun _ => some (1 / 2)) []
      c4source).validRecs.length = 1 ∧
    (processBatch ⟨[], []⟩ [] (fun _ => some (1 / 2)) []
      c4source).exclusions ≠ [] ∧
    (runPipeline ⟨true, 3, 100⟩ c4env ⟨[], []⟩ []
      (fun _ => some (1 / 2)) [] c4source).1.status = RunStatus.failed := by
  refine ⟨?_, ?_, ?_⟩ <;> decide

/-- C4 (amended): per-record failures never abort the batch — every
malformed record's exclusion is aggregated into the report — and
whenever at least one record survives validation, at least one record
was excluded, no stage exhausts its retries and the Persisting stage
itself succeeds, the run proceeds to Persisting and terminates
`partiallySucceeded` with the exclusions enumerated in the report. -/
theorem c4_per_record_failures (cfg : PipelineConfig) (env : RunEnv)
    (dicts : Dictionaries) (rules : List ValidationRule)
    (scoringFn : Record → Option ℚ) (s : Store) (source : List RawRecord)
    (hflag : (runStages env cfg.maxRetries stageList).2 = true)
    (hsnap : env.snapshotOk = true)
    (hfa : env.persistFailAfter = none)
    (hexcl : (processBatch dicts rules scoringFn s source).exclusions ≠ [])
    (hval : (processBatch dicts rules scoringFn s source).validRecs ≠ []) :
    (runPipeline cfg env dicts rules scoringFn s source).1.status =
      .partiallySucceeded ∧
    (runPipeline cfg env dicts rules scoringFn s source).2 =
      upsertAll s (processBatch dicts rules scoringFn s source).validRecs ∧
    (runPipeline cfg env dicts rules scoringFn s source).1.exclusions =
      (processBatch dicts rules scoringFn s source).exclusions ∧
    (∀ rr ∈ source, rr.parseOk = false →
      (rr.record.identifier, ExclusionReason.malformedInput) ∈
        (runPipeline cfg env dicts rules scoringFn s
          source).1.exclusions) := by
  have hempty :
      (processBatch dicts rules scoringFn s source).exclusions.isEmpty =
        false := by
    cases hE :
      (processBatch dicts rules scoringFn s source).exclusions.isEmpty
    · rfl
    · exact absurd (List.isEmpty_iff.mp hE) hexcl
  rw [runPipeline_persist_ok cfg env dicts rules scoringFn s source
    hflag hsnap hfa hval]
  refine ⟨by simp [hempty], rfl, rfl, ?_⟩
  intro rr hrr hparse
  show (rr.record.identifier, ExclusionReason.malformedInput) ∈
    (processBatch dicts rules scoringFn s source).exclusions
  unfold processBatch
  apply List.mem_append_left
  apply List.mem_append_left
  exact List.mem_map.mpr ⟨rr, List.mem_filter.mpr ⟨hrr, by rw [hparse]; rfl⟩,
    rfl⟩

/-- Environment where every stage and the whole persistence succeed. -/
def c4envOk : RunEnv :=
  ⟨fun _ _ => true, true, none⟩

theorem c4_witness :
    (runPipeline ⟨true, 3, 100⟩ c4envOk ⟨[], []⟩ []
      (fun _ => some (1 / 2)) [] c4source).1.status =
        RunStatus.partiallySucceeded ∧
    (runPipeline ⟨true, 3, 100⟩ c4envOk ⟨[], []⟩ []
      (fun _ => some (1 / 2)) [] c4source).1.exclusions =
      (processBatch ⟨[], []⟩ [] (fun _ => some (1 / 2)) []
        c4source).exclusions :=
  ⟨(c4_per_record_failures ⟨true, 3, 100⟩ c4envOk ⟨[], []⟩ []
      (fun _ => some (1 / 2)) [] c4source rfl rfl rfl (by decide)
      (by decide)).1,
   (c4_per_record_failures ⟨true, 3, 100⟩ c4envOk ⟨[], []⟩ []
      (fun _ => some (1 / 2)) [] c4source rfl rfl rfl (by decide)
      (by decide)).2.2.1⟩

/-! ## Idempotence lemmas -/

theorem enrichRecord_congr (dicts : Dictionaries) {s s' : Store}
    (h : ∀ id, histLookup s' id = histLookup s id) :
    enrichRecord dicts s' = enrichRecord dicts s := by
  funext c
  unfold enrichRecord
  rw [h]

theorem processBatch_congr (dicts : Dictionaries)
    (rules : List ValidationRule) (scoringFn : Record → Option ℚ)
    (source : List RawRecord) {s s' : Store}
    (h : ∀ id, histLookup s' id = histLookup s id) :
    processBatch dicts rules scoringFn s' source =
      processBatch dicts rules scoringFn s source := by
  unfold processBatch
  rw [enrichRecord_congr dicts h]

theorem processBatch_validRecs_hist (dicts : Dictionaries)
    (rules : List ValidationRule) (scoringFn : Record → Option ℚ)
    (s : Store) (source : List RawRecord) :
    ∀ p ∈ (processBatch dicts rules scoringFn s source).validRecs,
      p.histViolations = histLookup s p.identifier := by
  intro p hp
  unfold processBatch validRecords at hp
  have hp' := (List.mem_filter.mp hp).1
  obtain ⟨e, he, hse⟩ := List.mem_filterMap.mp hp'
  have hfields : p.histViolations = e.histViolations ∧
      p.identifier = e.identifier := by
    unfold scoreRecord at hse
    cases hs : scoringFn e with
    | none =>
        rw [hs] at hse
        cases hse
    | some sc =>
        rw [hs] at hse
        have hse' : some ({ e with
          riskScore := some sc
          riskCategory := some (categorize sc) } : Record) = some p := hse
        cases hse'
        exact ⟨rfl, rfl⟩
  obtain ⟨c, _, hec⟩ := List.mem_map.mp he
  have he' : e.histViolations = histLookup s e.identifier := by
    rw [← hec]
    rfl
  rw [hfields.1, hfields.2, he']

theorem histLookup_upsertAll_stable {s : Store} {vs : List Record}
    (h : ∀ p ∈ vs, p.histViolations = histLookup s p.identifier) :
    ∀ id, histLookup (upsertAll s vs) id = histLookup s id := by
  intro id
  cases hlw : lastWith vs id with
  | none =>
      unfold histLookup
      rw [lookup_upsertAll, hlw]
  | some p =>
      obtain ⟨hmem, hid⟩ := lastWith_mem hlw
      have h₁ : histLookup (upsertAll s vs) id = p.histViolations := by
        unfold histLookup
        rw [lookup_upsertAll, hlw]
      rw [h₁, h p hmem, hid]

/-- C5: running the pipeline twice on an unchanged source with the same
config leaves the store exactly as after the first run (upsert by
identifier, so the second run changes nothing), with no duplicate
identifiers in the store, and the second run's report (validation
aggregates included) is identical to the first run's. -/
theorem c5_pipeline_idempotent (cfg : PipelineConfig) (env : RunEnv)
    (dicts : Dictionaries) (rules : List ValidationRule)
    (scoringFn : Record → Option ℚ) (s : Store) (source : List RawRecord)
    (hnd : (storeKeys s).Nodup)
    (hflag : (runStages env cfg.maxRetries stageList).2 = true)
    (hsnap : env.snapshotOk = true)
    (hfa : env.persistFailAfter = none) :
    (runPipeline cfg env dicts rules scoringFn
        (runPipeline cfg env dicts rules scoringFn s source).2 source).2 =
      (runPipeline cfg env dicts rules scoringFn s source).2 ∧
    (runPipeline cfg env dicts rules scoringFn
        (runPipeline cfg env dicts rules scoringFn s source).2 source).1 =
      (runPipeline cfg env dicts rules scoringFn s source).1 ∧
    (storeKeys
      (runPipeline cfg env dicts rules scoringFn s source).2).Nodup := by
  by_cases hval :
      (processBatch dicts rules scoringFn s source).validRecs = []
  · have h1 :=
      runPipeline_no_valid cfg env dicts rules scoringFn s source hflag hval
    have h2 : (runPipeline cfg env dicts rules scoringFn s source).2 = s := by
      rw [h1]
    rw [h2]
    exact ⟨h2, rfl, hnd⟩
  · have hok := runPipeline_persist_ok cfg env dicts rules scoringFn s
      source hflag hsnap hfa hval
    have hhist : ∀ id,
        histLookup (upsertAll s
          (processBatch dicts rules scoringFn s source).validRecs) id =
          histLookup s id :=
      histLookup_upsertAll_stable
        (processBatch_validRecs_hist dicts rules scoringFn s source)
    have hpo : processBatch dicts rules scoringFn
        (upsertAll s (processBatch dicts rules scoringFn s
          source).validRecs) source =
        processBatch dicts rules scoringFn s source :=
      processBatch_congr dicts rules scoringFn source hhist
    have hval2 : (processBatch dicts rules scoringFn
        (upsertAll s (processBatch dicts rules scoringFn s
          source).validRecs) source).validRecs ≠ [] := by
      rw [hpo]
      exact hval
    have hok2 := runPipeline_persist_ok cfg env dicts rules scoringFn
      (upsertAll s (processBatch dicts rules scoringFn s
        source).validRecs) source hflag hsnap hfa hval2
    have hstore :
        (runPipeline cfg env dicts rules scoringFn s source).2 =
          upsertAll s (processBatch dicts rules scoringFn s
            source).validRecs := by
      rw [hok]
    rw [hstore, hok2, hok, hpo]
    refine ⟨?_, rfl, ?_⟩
    · show upsertAll (upsertAll s (processBatch dicts rules scoringFn s
        source).validRecs) (processBatch dicts rules scoringFn s
          source).validRecs = _
      exact upsertAll_idem _ hnd
    · exact nodup_keys_upsertAll _ hnd

theorem c5_witness :
    (runPipeline ⟨true, 3, 100⟩ c4envOk ⟨[], []⟩ []
        (fun _ => some (1 / 2))
        ((runPipeline ⟨true, 3, 100⟩ c4envOk ⟨[], []⟩ []
          (fun _ => some (1 / 2)) [] c4source).2) c4source).2 =
      (runPipeline ⟨true, 3, 100⟩ c4envOk ⟨[], []⟩ []
        (fun _ => some (1 / 2)) [] c4source).2 ∧
    (runPipeline ⟨true, 3, 100⟩ c4envOk ⟨[], []⟩ []
        (fun _ => some (1 / 2))
        ((runPipeline ⟨true, 3, 100⟩ c4envOk ⟨[], []⟩ []
          (fun _ => some (1 / 2)) [] c4source).2) c4source).1 =
      (runPipeline ⟨true, 3, 100⟩ c4envOk ⟨[], []⟩ []
        (fun _ => some (1 / 2)) [] c4source).1 :=
  ⟨(c5_pipeline_idempotent ⟨true, 3, 100⟩ c4envOk ⟨[], []⟩ []
      (fun _ => some (1 / 2)) [] c4source List.nodup_nil rfl rfl rfl).1,
   (c5_pipeline_idempotent ⟨true, 3, 100⟩ c4envOk ⟨[], []⟩ []
      (fun _ => some (1 / 2)) [] c4source List.nodup_nil rfl rfl rfl).2.1⟩

end Mapaq
